import Mathlib

/-!
Shallow embedding of the ArkReaderAssets asset-synchronization scripts
(`scripts/Downloader.py` and `scripts/utils/*.py`), with theorems checking
the natural-language specification against the code.

Conventions of the embedding:
* Python exceptions are modelled with `Except PyErr`.
* A Python `dict` keyed by either `str` or `pathlib.Path` objects is modelled
  as an insertion-ordered association list over `PyKey`; a `Path` key and a
  `str` key are never equal, as in Python.
* Byte-level MD5 digesting is abstracted as an oracle `String → Option String`
  (`none` models the `except`-branch of `FileChecker.compute_md5`, which
  swallows any I/O error and returns `None`).
* Network and archive I/O are oracles supplied through an `Env` record; the
  controller logic itself (`Downloader._start`, `hot_update`, ...) is
  translated statement by statement.
-/

set_option autoImplicit false

/-- Python exception kinds raised by the modelled code paths. -/
inductive PyErr where
  | assertionError
  | keyError
  | typeError
  | indexError
  | valueError
  | ioError
  | netError
deriving DecidableEq, Repr

deriving instance DecidableEq for Except

/-- A Python dict key as used by `FileChecker`: either a `str` or a
`pathlib.Path`.  In Python `PurePath.__eq__` with a `str` returns
`NotImplemented`, so a `Path` key never equals a `str` key even when their
text coincides; the derived `DecidableEq` reproduces that. -/
inductive PyKey where
  | str (s : String)
  | path (s : String)
deriving DecidableEq, Repr

/-- The in-memory store of `FileChecker`: insertion-ordered mapping from key
to value, where a value may be `None` (the failed-hash sentinel). -/
abbrev PyDict := List (PyKey × Option String)

/-- Python `d[k] = v`: replace in place if the key is present, else append. -/
def dictInsert (d : PyDict) (k : PyKey) (v : Option String) : PyDict :=
  match d with
  | [] => [(k, v)]
  | (k', v') :: rest =>
    if k' = k then (k, v) :: rest else (k', v') :: dictInsert rest k v

/-- Python `d[k]` as an option (also used for `k in d`). -/
def dictFind (d : PyDict) (k : PyKey) : Option (Option String) :=
  match d with
  | [] => none
  | (k', v') :: rest => if k' = k then some v' else dictFind rest k

/-- Python `d.update(entries)`: successive assignments in order. -/
def dictUpdate (d : PyDict) (entries : PyDict) : PyDict :=
  entries.foldl (fun acc kv => dictInsert acc kv.1 kv.2) d

/-- Replace every occurrence of one character, keeping the rest
(`str.replace` with a one-character needle). -/
def pyReplaceChar (s : String) (c : Char) (r : String) : String :=
  s.data.foldr (fun a acc => (if a = c then r else String.singleton a) ++ acc) ""

/-- Apply a character map to a string. -/
def mapChars (f : Char → Char) (s : String) : String :=
  ⟨s.data.map f⟩

/-! ## Filter engine (`scripts/utils/filter.py`)

`Filter.compile_patterns` translates each glob with `fnmatch.translate` —
which yields the anchored regular expression `(?s: body )\Z` — and joins the
results with `'|'`.  We embed the regular expressions produced by
`fnmatch.translate` as an explicit syntax tree: `anyStar` is `.*` (DOTALL, so
it crosses `/` and newlines), `anyChar` is `.`, `cls` is a character class,
and `endAnchor` is `\Z`.  Joining zero patterns yields the empty pattern
string, which `re.match` matches against every input at position 0. -/

/-- One member of a translated character class: a single character or a
`lo-hi` range. -/
inductive ClsItem where
  | single (c : Char)
  | range (lo hi : Char)
deriving DecidableEq, Repr

/-- Regular expressions as produced by `fnmatch.translate` and the `'|'` join
in `Filter.compile_patterns`. -/
inductive Regex where
  | eps
  | endAnchor
  | lit (c : Char)
  | anyChar
  | anyStar
  | cls (neg : Bool) (items : List ClsItem)
  | seq (a b : Regex)
  | alt (a b : Regex)
deriving DecidableEq, Repr

/-- Does a character match a (possibly negated) character class. -/
def clsMatch (neg : Bool) (items : List ClsItem) (a : Char) : Bool :=
  let m := items.any fun it =>
    match it with
    | .single c => a == c
    | .range lo hi => decide (lo ≤ a) && decide (a ≤ hi)
  if neg then !m else m

/-- Continuation-passing run of `.*`: succeed on any split point. -/
def starRun (k : List Char → Bool) : List Char → Bool
  | [] => k []
  | c :: rest => k (c :: rest) || starRun k rest

/-- Complete backtracking matcher in continuation-passing style: `reRun r s k`
holds iff some prefix of `s` matched by `r` leaves a suffix accepted by `k`. -/
def reRun : Regex → List Char → (List Char → Bool) → Bool
  | .eps, s, k => k s
  | .endAnchor, s, k => s.isEmpty && k s
  | .lit _, [], _ => false
  | .lit c, a :: s, k => a == c && k s
  | .anyChar, [], _ => false
  | .anyChar, _ :: s, k => k s
  | .cls _ _, [], _ => false
  | .cls neg items, a :: s, k => clsMatch neg items a && k s
  | .anyStar, s, k => starRun k s
  | .seq r1 r2, s, k => reRun r1 s (fun s' => reRun r2 s' k)
  | .alt r1 r2, s, k => reRun r1 s k || reRun r2 s k

/-- Python `re.Pattern.match`: does the regex match some prefix of the
string (anchored at the start only; `\Z` inside the regex anchors the end). -/
def reMatch (r : Regex) (s : String) : Bool :=
  reRun r s.data (fun _ => true)

/-- Index of the `]` closing a glob character class, mirroring
`fnmatch.translate`: a leading `!` and a `]` right after it belong to the
class body; `none` when the class is unterminated (then `[` is literal). -/
def clsEnd (l : List Char) : Option Nat :=
  let j0 := if l.head? == some '!' then 1 else 0
  let j1 := if (l.drop j0).head? == some ']' then j0 + 1 else j0
  match (l.drop j1).findIdx? (fun c => c == ']') with
  | none => none
  | some k => some (j1 + k)

/-- Parse the body of a character class into items; `a-b` with a following
character is a range, a trailing `-` is literal. -/
def clsItems : List Char → List ClsItem
  | a :: '-' :: b :: rest => .range a b :: clsItems rest
  | a :: rest => .single a :: clsItems rest
  | [] => []

/-- Build the class regex from the text between `[` and `]`, handling the
`!` negation marker. -/
def clsOf (stuff : List Char) : Regex :=
  let neg := stuff.head? == some '!'
  let body := if neg then stuff.tail else stuff
  .cls neg (clsItems body)

/-- Body of `fnmatch.translate`: glob text to regex.  `*` becomes `.*` (runs
of `*` collapse, which is also what `translate` does), `?` becomes `.`,
`[...]` becomes a character class, everything else is a literal.  The `fuel`
argument only makes the recursion structural; it starts at the list length
and every step consumes at least one character, so it never runs out. -/
def translateGo : Nat → List Char → Regex
  | _, [] => .eps
  | 0, _ :: _ => .eps
  | fuel + 1, c :: rest =>
    if c = '*' then
      Regex.seq .anyStar (translateGo fuel (rest.dropWhile (fun x => x == '*')))
    else if c = '?' then
      Regex.seq .anyChar (translateGo fuel rest)
    else if c = '[' then
      match clsEnd rest with
      | none => Regex.seq (.lit '[') (translateGo fuel rest)
      | some j => Regex.seq (clsOf (rest.take j)) (translateGo fuel (rest.drop (j + 1)))
    else
      Regex.seq (.lit c) (translateGo fuel rest)

/-- Whole of `fnmatch.translate`: the body wrapped as `(?s: body )\Z`.  The
`(?s:` flag is DOTALL, which our `anyChar`/`anyStar` already are. -/
def fnmatchTranslate (pat : String) : Regex :=
  .seq (translateGo pat.data.length pat.data) .endAnchor

namespace Filter

/-- Embeds `Filter.compile_patterns`: translate each glob and join with `|`.
The join of zero patterns is the empty pattern string, whose compiled form
matches the empty prefix of every input — modelled as `Regex.eps`. -/
def compile_patterns (patterns : List String) : Regex :=
  match patterns.map fnmatchTranslate with
  | [] => .eps
  | r :: rs => rs.foldl .alt r

/-- Embeds `Filter.match`: normalize backslash separators to `/`, then test
membership via `re.Pattern.match`. -/
def match' (filename : String) (pattern : Regex) : Bool :=
  reMatch pattern (mapChars (fun c => if c = '\\' then '/' else c) filename)

/-- Embeds `Filter.compile`: the matcher closure over the compiled pattern. -/
def compile (patterns : List String) : String → Bool :=
  fun filename => match' filename (compile_patterns patterns)

end Filter

/-! ## Position dispatcher (`scripts/utils/dispatcher.py`)

`heapq` maintains a min-heap of released positions; `heappop` removes the
minimum.  We keep the released positions as a sorted list, so the head is
the heap minimum; `released_set` always holds exactly the heap's elements,
so list membership stands in for both. -/

/-- State of `PositionDispatcher`: the next-fresh counter and the released
positions (sorted ascending; the head is what `heapq.heappop` returns). -/
structure PositionDispatcher where
  counter : Nat
  released : List Nat
deriving DecidableEq, Repr

/-- Sorted insert: `heapq.heappush` up to heap/list representation. -/
def heapPush : List Nat → Nat → List Nat
  | [], p => [p]
  | q :: rest, p => if p ≤ q then p :: q :: rest else q :: heapPush rest p

namespace PositionDispatcher

/-- Embeds `PositionDispatcher.request`: reuse the smallest released
position when one exists, else hand out the counter and increment it. -/
def request (d : PositionDispatcher) : Nat × PositionDispatcher :=
  match d.released with
  | p :: rest => (p, ⟨d.counter, rest⟩)
  | [] => (d.counter, ⟨d.counter + 1, []⟩)

/-- Embeds `PositionDispatcher.release`: a position may be released only if
it was issued (`p < counter`) and is not currently released; otherwise
`ValueError` is raised. -/
def release (d : PositionDispatcher) (p : Nat) : Except PyErr PositionDispatcher :=
  if p < d.counter ∧ p ∉ d.released then
    .ok ⟨d.counter, heapPush d.released p⟩
  else
    .error .valueError

end PositionDispatcher

/-! ## Manifest entries (`scripts/utils/infos.py`) -/

/-- Embeds `get_valid_str_value`: the value only when the key is present and
truthy (the empty string is falsy), else `None`.  An absent key is modelled
by `none` on the input side. -/
def get_valid_str_value (v : Option String) : Option String :=
  match v with
  | some s => if s = "" then none else some s
  | none => none

/-- One raw entry of the remote manifest JSON (`abInfos` / `packInfos`
element) as seen by `HotUpdateInfo.from_dict`: optional keys are `none` when
absent. -/
structure RawInfo where
  cid : Int
  name : String
  hash : Option String := none
  md5 : Option String := none
  totalSize : Int
  abSize : Int
  type : Option String := none
  pid : Option String := none
deriving DecidableEq, Repr

/-- Embeds the class `HotUpdateInfo`. -/
structure HotUpdateInfo where
  id : Int
  name : String
  hash : Option String
  md5 : Option String
  total_size : Int
  ab_size : Int
  type : Option String
  parent : Option String
  need_update : Bool := true
deriving DecidableEq, Repr

/-- Embeds `HotUpdateInfo.from_dict`. -/
def HotUpdateInfo.from_dict (data : RawInfo) : HotUpdateInfo where
  id := data.cid
  name := data.name
  hash := get_valid_str_value data.hash
  md5 := get_valid_str_value data.md5
  total_size := data.totalSize
  ab_size := data.abSize
  type := get_valid_str_value data.type
  parent := get_valid_str_value data.pid

/-! ## Integrity store (`scripts/utils/checker.py`)

File paths are represented by their path relative to the checker root in
POSIX form (the string `file.relative_to(self.path).as_posix()` computes in
the source); the conversion from absolute `Path` objects is elided.  The
digest of a file's bytes is an oracle `md5fs : String → Option String`:
`some h` is the hex digest, `none` is the `except Exception: return None`
branch of `compute_md5`. -/

/-- State of a `FileChecker`: the in-memory `_data` dict plus the history of
snapshots written to `md5.data` (each snapshot is the list of lines written;
`save` appends one). -/
structure FCState where
  data : PyDict
  saves : List (List String)
deriving DecidableEq, Repr

namespace FileChecker

/-- Embeds `FileChecker.compute_md5`: digesting is abstracted as the oracle
itself; `none` models the swallowed exception. -/
def compute_md5 (md5fs : String → Option String) (file_path : String) : Option String :=
  md5fs file_path

/-- Embeds `compute_md5_for_files` (together with `compute_md5_async`): the
per-file singleton dicts merged into one dict, one entry per file, in input
order. -/
def compute_md5_for_files (md5fs : String → Option String) (files : List String) : PyDict :=
  files.map (fun f => (PyKey.str f, compute_md5 md5fs f))

/-- Embeds `cal_files`: `self._data.update(await self.compute_md5_for_files(files))`.
No persist happens here (the `save` call is commented out in the source). -/
def cal_files (st : FCState) (files : List String) (md5fs : String → Option String) : FCState :=
  { st with data := dictUpdate st.data (compute_md5_for_files md5fs files) }

/-- The lines `'\n'.join(data)` would write for the flattened
key/value-alternating list: any `Path` key or `None` value is not a `str`
and makes `join` raise `TypeError`. -/
def saveLines : PyDict → Except PyErr (List String)
  | [] => .ok []
  | (PyKey.str k, some v) :: rest =>
    match saveLines rest with
    | .ok ls => .ok (k :: v :: ls)
    | .error e => .error e
  | _ :: _ => .error .typeError

/-- Embeds `FileChecker.save`: flatten the dict into alternating key/value
lines and overwrite `md5.data` with them (whole-file replace). -/
def save (st : FCState) : Except PyErr FCState :=
  match saveLines st.data with
  | .ok lines => .ok { st with saves := st.saves ++ [lines] }
  | .error e => .error e

/-- Embeds `FileChecker.clear`: empty the dict, then `save` (which always
succeeds on the empty dict and writes an empty snapshot). -/
def clear (st : FCState) : Except PyErr FCState :=
  save { st with data := [] }

/-- Embeds `FileChecker.cal_all`: `clear` (which persists the emptied
store), hash every regular file found under the root (the `rglob`
enumeration is the `files` argument), then `save` once more. -/
def cal_all (st : FCState) (files : List String) (md5fs : String → Option String) :
    Except PyErr FCState :=
  match clear st with
  | .error e => .error e
  | .ok st1 =>
    save (cal_files st1 files md5fs)

/-- Embeds `FileChecker.update`: assert the file exists and is a regular
file, then assign `self._data[rel] = md5` in memory only. -/
def update (st : FCState) (fileExists isFile : Bool) (rel : String) (md5 : String) :
    Except PyErr FCState :=
  if fileExists then
    if isFile then
      .ok { st with data := dictInsert st.data (.str rel) (some md5) }
    else .error .assertionError
  else .error .assertionError

/-- Embeds the `Path`-based `FileChecker.check`: the containment test uses
the POSIX string of the relative path, but the final subscript indexes with
the `Path` object itself, which is a different dict key. -/
def check (d : PyDict) (rel : String) (md5 : String) : Except PyErr Bool :=
  if (dictFind d (.str rel)).isNone then
    .ok false
  else
    match dictFind d (.path rel) with
    | none => .error .keyError
    | some v => .ok (v == some md5)

/-- Embeds `FileChecker.check_info`:
`info.name in self._data and self._data[info.name] == info.md5`.
Both the stored value and `info.md5` may be `None`, and `None == None` is
`True` in Python, which the `Option String` equality reproduces. -/
def check_info (d : PyDict) (info : HotUpdateInfo) : Bool :=
  match dictFind d (.str info.name) with
  | none => false
  | some v => v == info.md5

end FileChecker

/-! ## Version record (`scripts/utils/versions.py`) -/

/-- Embeds `GameVersion`: both fields default to the empty string in
`__init__`; they are `Option String` because values that reach the
constructor from JSON may be `None`, and `Downloader.__init__` explicitly
tests them against `None`. -/
structure GameVersion where
  client_version : Option String := some ""
  resource_version : Option String := some ""
deriving DecidableEq, Repr

/-- Python `str.splitlines` for `\n`-separated text: every `\n` ends a line
and a trailing newline does not produce an empty final line. -/
def pySplitlines (s : String) : List String :=
  go s.data []
where
  go : List Char → List Char → List String
  | [], acc => if acc.isEmpty then [] else [⟨acc.reverse⟩]
  | '\n' :: rest, acc => (⟨acc.reverse⟩ : String) :: go rest []
  | c :: rest, acc => go rest (c :: acc)

/-- Python `f"..."` rendering of a field that may be `None`. -/
def pyStr (o : Option String) : String :=
  match o with
  | some s => s
  | none => "None"

namespace GameVersion

/-- Embeds `GameVersion.load`/`_load` on the content of `version.txt`
(`none` = file missing): a missing file keeps the constructor defaults, a
present file must split into exactly the two fields or the tuple unpacking
raises `ValueError`. -/
def load (file : Option String) : Except PyErr GameVersion :=
  match file with
  | none => .ok {}
  | some content =>
    match pySplitlines content with
    | [c, r] => .ok ⟨some c, some r⟩
    | _ => .error .valueError

/-- Embeds `GameVersion.save`: the content written to `version.txt`,
`f"{client_version}\n{resource_version}"`. -/
def saveContent (v : GameVersion) : String :=
  pyStr v.client_version ++ "\n" ++ pyStr v.resource_version

end GameVersion

/-- Embeds the version-handling part of `Downloader.__init__`: load the
local version from `version.txt`, then `init_mode` is `True` iff
`client_version is None and resource_version is None`. -/
def downloaderInit (versionFile : Option String) : Except PyErr (GameVersion × Bool) :=
  match GameVersion.load versionFile with
  | .error e => .error e
  | .ok v => .ok (v, v.client_version == none && v.resource_version == none)

/-! ## Synchronization controller (`scripts/Downloader.py`)

Network and archive I/O are oracles in an `Env`; the control flow of
`Downloader._start`, `hot_update`, `download_apk`, `get_file_list` and
`check_hot_update` is translated statement by statement.  A `World` carries
the durable state the claims are about (the version record, the integrity
store) plus an ordered trace of the effects the run performs. -/

/-- The remote manifest JSON (`hot_update_list.json`) after `json.loads`. -/
structure Manifest where
  versionId : Option String
  abInfos : List RawInfo
  packInfos : List RawInfo

/-- Embeds `Downloader.get_file_list`: fetch and parse the manifest, then
`assert file_list['versionId'] == self.remote_version.resource_version`
before any entry is parsed; only then build the `abInfos` and `packInfos`
entry lists. -/
def get_file_list (manifestResult : Except PyErr Manifest) (remote : GameVersion) :
    Except PyErr (List HotUpdateInfo × List HotUpdateInfo) :=
  match manifestResult with
  | .error e => .error e
  | .ok m =>
    if m.versionId == remote.resource_version then
      .ok (m.abInfos.map HotUpdateInfo.from_dict, m.packInfos.map HotUpdateInfo.from_dict)
    else
      .error .assertionError

/-- Embeds `str.rsplit` with `'.'` and a count of one, first component:
everything before the last dot, or the whole string when there is no dot. -/
def rsplitDotHead (s : String) : String :=
  let parts := s.splitOn "."
  if parts.length ≤ 1 then s else String.intercalate "." parts.dropLast

/-- Embeds `Downloader.get_hot_update_file_url` up to the base-URL part:
the name of the archive file, which is also the last URL segment used as
the local file name in `download_asset`/`check_hot_update`. -/
def get_hot_update_file_name (name : String) : String :=
  pyReplaceChar (pyReplaceChar (rsplitDotHead name ++ ".dat") '/' "_") '#' "__"

/-- Embeds `Downloader.check_hot_update`: walk the manifest entries in
order; drop entries matched by the exclusion filter, then entries not
matched by the inclusion filter; `need_update` is the negated integrity
check; entries needing update always go to the unpack list, and also to the
download list unless their archive already exists locally with exactly the
declared `total_size` (`zipSizes` is the local archive directory listing). -/
def check_hot_update (excl incl : String → Bool) (d : PyDict)
    (zipSizes : String → Option Int) :
    List HotUpdateInfo → List HotUpdateInfo × List HotUpdateInfo
  | [] => ([], [])
  | info :: rest =>
    let (dl, up) := check_hot_update excl incl d zipSizes rest
    if excl info.name then (dl, up)
    else if !(incl info.name) then (dl, up)
    else
      let needUpdate := !(FileChecker.check_info d info)
      if needUpdate then
        let info' := { info with need_update := needUpdate }
        match zipSizes (get_hot_update_file_name info.name) with
        | some sz =>
          if info.total_size = sz then (dl, info' :: up)
          else (info' :: dl, info' :: up)
        | none => (info' :: dl, info' :: up)
      else (dl, up)

/-- One observable effect of a run, in the order it is performed. -/
inductive Event where
  | apkDownloaded
  | apkExtracted
  | checkerRecomputed
  | archiveDownloaded (name : String)
  | archivesExtracted
  | hashRecorded (file : String)
  | checkerSaved
  | versionSaved
deriving DecidableEq, Repr

/-- Durable state plus effect trace of one run. -/
structure World where
  versionFile : Option String
  checker : FCState
  events : List Event
deriving Repr

/-- Outcomes of the external I/O a run performs (network fetches, archive
downloads and extractions, digest computations), supplied as oracles. -/
structure Env where
  netConfigResult : Except PyErr Unit
  remoteVersionResult : Except PyErr GameVersion
  apkUrlFound : Bool
  apkFetchResult : Except PyErr Unit
  apkExtractResult : Except PyErr Unit
  apkFiles : List String
  manifestResult : Except PyErr Manifest
  downloadResult : String → Except PyErr Unit
  extractResult : String → Except PyErr (List String)
  md5fs : String → Option String
  getMd5Result : String → Except PyErr String
  zipSizes : String → Option Int
  excludePatterns : List String
  filterPatterns : List String

/-- Result of a controller step: the world reached so far together with
normal completion or a raised exception. -/
abbrev StepR := World × Except PyErr Unit

/-- Normal completion of a step. -/
def stepOk (w : World) : StepR := (w, .ok ())

/-- Sequencing with exception propagation: a raised exception skips the
rest of the run but keeps the world reached at the raise point. -/
def andThen (r : StepR) (f : World → StepR) : StepR :=
  match r with
  | (w, .ok _) => f w
  | (w, .error e) => (w, .error e)

/-- The download batch of `hot_update` (the `async_tqdm.gather` over
`download_asset` tasks): every archive in the download list is fetched; the
first raised exception propagates out of the gather.  Completion order of
the concurrent transfers is irrelevant to the claims, so the batch is
run in list order. -/
def runDownloads (env : Env) (names : List String) (w : World) : StepR :=
  match names with
  | [] => stepOk w
  | n :: rest =>
    match env.downloadResult n with
    | .ok _ => runDownloads env rest
        { w with events := w.events ++ [.archiveDownloaded n] }
    | .error e => (w, .error e)

/-- The extraction batch (`zip_extractor.extract_files`): one list of
written files per archive, aligned with the input order; a raised
exception in any archive propagates. -/
def runExtracts (env : Env) (names : List String) : Except PyErr (List (List String)) :=
  match names with
  | [] => .ok []
  | n :: rest =>
    match env.extractResult n with
    | .error e => .error e
    | .ok fs =>
      match runExtracts env rest with
      | .error e => .error e
      | .ok rs => .ok (fs :: rs)

/-- The per-entry hash-recording loop at the end of `hot_update`: entries
with no extracted files are skipped; when the manifest declared an `md5`
the first written file is re-digested with `Downloader.get_md5` (errors
propagate) and the locally computed digest is recorded (a mismatch with the
declared one is only logged); otherwise the files are digested through
`cal_files` (failures swallowed to the `None` sentinel). -/
def recordHashes (env : Env) : List (HotUpdateInfo × List String) → World → StepR
  | [], w => stepOk w
  | (info, files) :: rest, w =>
    match files with
    | [] => recordHashes env rest w
    | f0 :: _ =>
      match info.md5 with
      | some _ =>
        match env.getMd5Result f0 with
        | .error e => (w, .error e)
        | .ok computed =>
          match FileChecker.update w.checker true true f0 computed with
          | .error e => (w, .error e)
          | .ok st' => recordHashes env rest
              { w with checker := st', events := w.events ++ [.hashRecorded f0] }
      | none =>
        let st' := FileChecker.cal_files w.checker files env.md5fs
        recordHashes env rest
          { w with checker := st', events := w.events ++ [.hashRecorded f0] }

/-- Persist the integrity store (`await self.file_checker.save()`). -/
def saveChecker (w : World) : StepR :=
  match FileChecker.save w.checker with
  | .error e => (w, .error e)
  | .ok st' => stepOk { w with checker := st', events := w.events ++ [.checkerSaved] }

/-- The candidate list built at the top of `Downloader.hot_update`:
`download_list = ab`, extended by the pack entries only when `init_mode`. -/
def downloadCandidates (initMode : Bool) (ab pack : List HotUpdateInfo) :
    List HotUpdateInfo :=
  if initMode then ab ++ pack else ab

/-- Embeds `Downloader.hot_update`: fetch the manifest entry lists, extend
the candidate list with pack entries only in init mode, partition into
download/unpack lists, download every needed archive, extract the filtered
members of every unpack archive, record per-file hashes, and persist the
integrity store once at the end. -/
def hot_update (env : Env) (initMode : Bool) (remote : GameVersion) (w : World) : StepR :=
  match get_file_list env.manifestResult remote with
  | .error e => (w, .error e)
  | .ok (ab, pack) =>
    let dl := check_hot_update (Filter.compile env.excludePatterns)
      (Filter.compile env.filterPatterns) w.checker.data env.zipSizes
      (downloadCandidates initMode ab pack)
    andThen (runDownloads env (dl.1.map (fun i => get_hot_update_file_name i.name)) w)
      (fun w1 =>
        match runExtracts env (dl.2.map (fun i => get_hot_update_file_name i.name)) with
        | .error e => (w1, .error e)
        | .ok filess =>
          andThen (recordHashes env (dl.2.zip filess)
            { w1 with events := w1.events ++ [.archivesExtracted] }) saveChecker)

/-- Embeds `Downloader.download_apk`: when no Android package URL is found
the method logs and returns normally; otherwise fetch the package, extract
the filtered asset paths from it, and recompute the whole integrity store
(`cal_all`, which persists the cleared store and then the recomputed one). -/
def download_apk (env : Env) (w : World) : StepR :=
  if !env.apkUrlFound then stepOk w
  else
    match env.apkFetchResult with
    | .error e => (w, .error e)
    | .ok _ =>
      let w1 := { w with events := w.events ++ [.apkDownloaded] }
      match env.apkExtractResult with
      | .error e => (w1, .error e)
      | .ok _ =>
        let w2 := { w1 with events := w1.events ++ [.apkExtracted] }
        match FileChecker.cal_all w2.checker env.apkFiles env.md5fs with
        | .error e => (w2, .error e)
        | .ok st' =>
          stepOk { w2 with
                   checker := st',
                   events := w2.events ++ [.checkerRecomputed] }

namespace Downloader

/-- Embeds `Downloader._start` (preceded by the version-loading part of
`__init__`): resolve the network configuration, fetch the remote version,
stop early when the local version is up to date, refresh the client package
when the client version differs, run `hot_update`, and only then overwrite
`version.txt` with the remote version. -/
def start (env : Env) (w : World) : StepR :=
  match downloaderInit w.versionFile with
  | .error e => (w, .error e)
  | .ok (localV, initMode) =>
    match env.netConfigResult with
    | .error e => (w, .error e)
    | .ok _ =>
      match env.remoteVersionResult with
      | .error e => (w, .error e)
      | .ok remote =>
        if localV == remote then stepOk w
        else
          andThen
            (if localV.client_version == remote.client_version then stepOk w
             else download_apk env w)
            (fun w1 =>
              andThen (hot_update env initMode remote w1)
                (fun w2 =>
                  stepOk { w2 with
                    versionFile := some (GameVersion.saveContent remote),
                    events := w2.events ++ [.versionSaved] }))

end Downloader

/-- Entries a successful `FileChecker.save` can serialize: a `str` key and
a non-`None` value. -/
def GoodEntry (kv : PyKey × Option String) : Prop :=
  (∃ s, kv.1 = PyKey.str s) ∧ kv.2.isSome

/-- One world extends another without touching the version record: the
version file is unchanged and the effect trace only grew, never by a
`versionSaved` effect. -/
def ExtendsNoVer (w w' : World) : Prop :=
  w'.versionFile = w.versionFile
  ∧ ∃ es, w'.events = w.events ++ es ∧ Event.versionSaved ∉ es

/-- A fresh world: no version record, empty integrity store, no effects. -/
def emptyWorld : World :=
  { versionFile := none, checker := { data := [], saves := [] }, events := [] }

/-- A concrete environment whose manifest declares resource version `r6`
while the version endpoint reported `r5`. -/
def envMismatch : Env where
  netConfigResult := .ok ()
  remoteVersionResult := .ok { client_version := some "1", resource_version := some "r5" }
  apkUrlFound := false
  apkFetchResult := .ok ()
  apkExtractResult := .ok ()
  apkFiles := []
  manifestResult := .ok { versionId := some "r6", abInfos := [], packInfos := [] }
  downloadResult := fun _ => .ok ()
  extractResult := fun _ => .ok []
  md5fs := fun _ => none
  getMd5Result := fun _ => .ok ""
  zipSizes := fun _ => none
  excludePatterns := []
  filterPatterns := []

/-- A concrete environment for a fully successful incremental run with an
empty manifest: remote version `(1, r5)`, everything reachable succeeds. -/
def envHappy : Env where
  netConfigResult := .ok ()
  remoteVersionResult := .ok { client_version := some "1", resource_version := some "r5" }
  apkUrlFound := false
  apkFetchResult := .ok ()
  apkExtractResult := .ok ()
  apkFiles := []
  manifestResult := .ok { versionId := some "r5", abInfos := [], packInfos := [] }
  downloadResult := fun _ => .ok ()
  extractResult := fun _ => .ok []
  md5fs := fun _ => none
  getMd5Result := fun _ => .ok ""
  zipSizes := fun _ => none
  excludePatterns := []
  filterPatterns := []

/-! ## Supporting lemmas -/

/-- In a dict whose keys are all `str` keys, a lookup with a `Path` key
finds nothing. -/
lemma dictFind_path_eq_none (d : PyDict) (rel : String)
    (h : ∀ kv ∈ d, ∃ s, kv.1 = PyKey.str s) :
    dictFind d (.path rel) = none := by
  induction d with
  | nil => rfl
  | cons kv rest ih =>
    obtain ⟨s, hs⟩ := h kv (List.mem_cons_self _ _)
    obtain ⟨k, v⟩ := kv
    simp only at hs
    subst hs
    simp only [dictFind]
    rw [if_neg (by simp)]
    exact ih fun kv' h' => h kv' (List.mem_cons_of_mem _ h')

/-- `dictInsert` preserves serializability of all entries. -/
lemma goodEntry_dictInsert (d : PyDict) (k : PyKey) (v : Option String)
    (hd : ∀ kv ∈ d, GoodEntry kv) (hkv : GoodEntry (k, v)) :
    ∀ kv ∈ dictInsert d k v, GoodEntry kv := by
  induction d with
  | nil =>
    intro kv hm
    simp only [dictInsert, List.mem_singleton] at hm
    subst hm
    exact hkv
  | cons a rest ih =>
    obtain ⟨k', v'⟩ := a
    intro kv hm
    simp only [dictInsert] at hm
    by_cases hk : k' = k
    · rw [if_pos hk] at hm
      rcases List.mem_cons.mp hm with h | h
      · subst h; exact hkv
      · exact hd _ (List.mem_cons_of_mem _ h)
    · rw [if_neg hk] at hm
      rcases List.mem_cons.mp hm with h | h
      · subst h; exact hd _ (List.mem_cons_self _ _)
      · exact ih (fun kv' h' => hd kv' (List.mem_cons_of_mem _ h')) kv h

/-- `dictUpdate` preserves serializability of all entries. -/
lemma goodEntry_dictUpdate (entries : PyDict) :
    ∀ d : PyDict, (∀ kv ∈ d, GoodEntry kv) → (∀ kv ∈ entries, GoodEntry kv) →
      ∀ kv ∈ dictUpdate d entries, GoodEntry kv := by
  induction entries with
  | nil => intro d hd _ kv hm; exact hd kv hm
  | cons a rest ih =>
    intro d hd he kv hm
    have hstep : dictUpdate d (a :: rest) = dictUpdate (dictInsert d a.1 a.2) rest := rfl
    rw [hstep] at hm
    exact ih _ (goodEntry_dictInsert d a.1 a.2 hd (he a (List.mem_cons_self _ _)))
      (fun kv' h' => he kv' (List.mem_cons_of_mem _ h')) kv hm

/-- A dict of serializable entries flattens into lines without a
`TypeError`. -/
lemma saveLines_ok_of_good (d : PyDict) (h : ∀ kv ∈ d, GoodEntry kv) :
    ∃ lines, FileChecker.saveLines d = .ok lines := by
  induction d with
  | nil => exact ⟨[], rfl⟩
  | cons a rest ih =>
    obtain ⟨⟨s, hs⟩, hv⟩ := h a (List.mem_cons_self _ _)
    obtain ⟨k, v⟩ := a
    simp only at hs hv
    subst hs
    obtain ⟨x, hx⟩ := Option.isSome_iff_exists.mp hv
    subst hx
    obtain ⟨ls, hls⟩ := ih fun kv' h' => h kv' (List.mem_cons_of_mem _ h')
    exact ⟨s :: x :: ls, by simp only [FileChecker.saveLines, hls]⟩

/-- Membership in a `heapPush` result. -/
lemma mem_heapPush (l : List Nat) (p x : Nat) : x ∈ heapPush l p ↔ x = p ∨ x ∈ l := by
  induction l with
  | nil => simp [heapPush]
  | cons q rest ih =>
    simp only [heapPush]
    by_cases h : p ≤ q
    · rw [if_pos h]
      simp [List.mem_cons]
    · rw [if_neg h]
      simp [List.mem_cons, ih]
      tauto

/-- `heapPush` keeps the released list sorted, so the head stays the
minimum across any request/release history. -/
lemma sorted_heapPush (l : List Nat) (p : Nat) (h : List.Sorted (· ≤ ·) l) :
    List.Sorted (· ≤ ·) (heapPush l p) := by
  induction l with
  | nil => simp [heapPush]
  | cons q rest ih =>
    rw [List.sorted_cons] at h
    obtain ⟨hq, hrest⟩ := h
    simp only [heapPush]
    by_cases hpq : p ≤ q
    · rw [if_pos hpq, List.sorted_cons]
      refine ⟨?_, List.sorted_cons.mpr ⟨hq, hrest⟩⟩
      intro b hb
      rcases List.mem_cons.mp hb with rfl | hb'
      · exact hpq
      · exact le_trans hpq (hq b hb')
    · rw [if_neg hpq, List.sorted_cons]
      refine ⟨?_, ih hrest⟩
      intro b hb
      rcases (mem_heapPush rest p b).mp hb with rfl | hb'
      · exact le_of_not_le hpq
      · exact hq b hb'

/-! ## Claim theorems -/

/-- C3 counterexample: the matcher compiled from the empty pattern list does
not match nothing — joining zero translated globs yields the empty regular
expression, and `re.match` of the empty pattern succeeds on every string, so
`Filter.compile([])` returns `True` here, not `False`. -/
theorem empty_filter_matches_counterexample :
    Filter.compile [] "voice/1.mp3" = true := by decide

/-- C3 (amended): compiling an empty list of glob patterns yields a matcher
that matches everything: for every path string `p`, the matcher produced by
`Filter.compile []` returns `true` on `p`, because the `'|'`-join of zero
pattern regexes is the empty pattern, which matches a prefix of any input. -/
theorem empty_filter_matches_everything (p : String) :
    Filter.compile [] p = true := rfl

/-- C2 (code-bug evaluation): when no local version record exists,
`GameVersion.load` yields empty strings (not `None`) for both fields, so the
`is None` test in `Downloader.__init__` computes `init_mode = False` and the
run selects incremental-update behavior: `download_list` is the bundle list
alone, pack entries are only appended when `init_mode` is `True`, which is
unreachable. -/
theorem missing_version_record_selects_update_mode :
    downloaderInit none
      = .ok ({ client_version := some "", resource_version := some "" }, false)
    ∧ ∀ ab pack : List HotUpdateInfo,
        downloadCandidates false ab pack = ab
        ∧ downloadCandidates true ab pack = ab ++ pack :=
  ⟨by decide, fun _ _ => ⟨rfl, rfl⟩⟩

/-- C4 counterexample: an entry whose declared hash is absent (`md5 = None`)
is reported current by `check_info` when the stored value for its name is
the failed-hash sentinel `None`, because Python evaluates `None == None` to
`True`; this falsifies the claim's final conjunct. -/
theorem check_info_sentinel_counterexample :
    FileChecker.check_info [(.str "x", none)]
      { id := 1, name := "x", hash := none, md5 := none,
        total_size := 0, ab_size := 0, type := none, parent := none } = true
    ∧ ({ id := 1, name := "x", hash := none, md5 := none,
         total_size := 0, ab_size := 0, type := none,
         parent := none } : HotUpdateInfo).md5 = none := by
  decide

/-- C4 (amended): for every store state and manifest entry, `check_info`
returns `true` iff the entry's name is a key of the in-memory map and the
stored value equals the entry's declared hash (as Python values, so two
`None`s compare equal); the three concrete examples from the claim hold;
and an entry whose declared hash is absent is never reported current
provided the stored value for its name is not the failed-hash sentinel. -/
theorem check_info_spec :
    (∀ (d : PyDict) (info : HotUpdateInfo),
        FileChecker.check_info d info = true
          ↔ dictFind d (.str info.name) = some info.md5)
    ∧ FileChecker.check_info [(.str "a/b.dat", some "abc123")]
        { id := 1, name := "a/b.dat", hash := none, md5 := some "abc123",
          total_size := 0, ab_size := 0, type := none, parent := none } = true
    ∧ FileChecker.check_info [(.str "a/b.dat", some "abc123")]
        { id := 1, name := "a/b.dat", hash := none, md5 := some "xyz",
          total_size := 0, ab_size := 0, type := none, parent := none } = false
    ∧ FileChecker.check_info [(.str "a/b.dat", some "abc123")]
        { id := 1, name := "missing", hash := none, md5 := some "abc123",
          total_size := 0, ab_size := 0, type := none, parent := none } = false
    ∧ ∀ (d : PyDict) (info : HotUpdateInfo),
        info.md5 = none → dictFind d (.str info.name) ≠ some none →
        FileChecker.check_info d info = false := by
  refine ⟨?_, by decide, by decide, by decide, ?_⟩
  · intro d info
    cases hf : dictFind d (.str info.name) with
    | none => simp [FileChecker.check_info, hf]
    | some v => simp [FileChecker.check_info, hf]
  · intro d info h1 h2
    cases hf : dictFind d (.str info.name) with
    | none => simp [FileChecker.check_info, hf]
    | some v =>
      cases v with
      | none => exact absurd hf h2
      | some x => simp [FileChecker.check_info, hf, h1]

/-- C4 witness: the amended final conjunct at a concrete store and entry. -/
theorem check_info_spec_witness :
    FileChecker.check_info [(.str "n", some "h")]
      { id := 1, name := "n", hash := none, md5 := none,
        total_size := 0, ab_size := 0, type := none, parent := none } = false :=
  check_info_spec.2.2.2.2 [(.str "n", some "h")]
    { id := 1, name := "n", hash := none, md5 := none,
      total_size := 0, ab_size := 0, type := none, parent := none }
    rfl (by decide)

/-- C5 counterexample: `cal_all` does not persist exactly once — its first
statement `clear` itself calls `save`, so the store is persisted twice: the
`saves` history gains the empty snapshot and then the final snapshot. -/
theorem cal_all_persists_twice_counterexample :
    FileChecker.cal_all { data := [(.str "old", some "v")], saves := [] }
        ["a"] (fun _ => some "h")
      = .ok { data := [(.str "a", some "h")], saves := [[], ["a", "h"]] }
    ∧ ([[], ["a", "h"]] : List (List String)).length ≠ 1 := by
  decide

/-- C5 (amended): when every file's hash computation succeeds, `cal_all`
clears the map, recomputes exactly one entry per enumerated file (the
hashes of the files under the root, in enumeration order), and persists the
store twice: once immediately after clearing (writing the cleared store)
and once at the end of the batch (writing the recomputed store). -/
theorem cal_all_spec (st : FCState) (files : List String)
    (md5fs : String → Option String) (h : ∀ f ∈ files, (md5fs f).isSome) :
    ∃ st' lines,
      FileChecker.cal_all st files md5fs = .ok st'
      ∧ st'.data = dictUpdate [] (FileChecker.compute_md5_for_files md5fs files)
      ∧ FileChecker.saveLines st'.data = .ok lines
      ∧ st'.saves = st.saves ++ [[], lines] := by
  have hgood : ∀ kv ∈ FileChecker.compute_md5_for_files md5fs files, GoodEntry kv := by
    intro kv hm
    simp only [FileChecker.compute_md5_for_files, FileChecker.compute_md5,
      List.mem_map] at hm
    obtain ⟨f, hf, rfl⟩ := hm
    exact ⟨⟨f, rfl⟩, h f hf⟩
  have hgood' : ∀ kv ∈ dictUpdate [] (FileChecker.compute_md5_for_files md5fs files),
      GoodEntry kv :=
    goodEntry_dictUpdate _ [] (by intro kv hm; cases hm) hgood
  obtain ⟨lines, hlines⟩ := saveLines_ok_of_good _ hgood'
  refine ⟨{ data := dictUpdate [] (FileChecker.compute_md5_for_files md5fs files),
            saves := st.saves ++ [[], lines] }, lines, ?_, rfl, hlines, rfl⟩
  have hclear : FileChecker.clear st = .ok { data := [], saves := st.saves ++ [[]] } := rfl
  unfold FileChecker.cal_all
  rw [hclear]
  show FileChecker.save (FileChecker.cal_files
      { data := [], saves := st.saves ++ [[]] } files md5fs) = _
  unfold FileChecker.save FileChecker.cal_files
  rw [hlines]
  simp [List.append_assoc]

/-- C5 witness: the amended statement at a concrete store, file list and
digest oracle. -/
theorem cal_all_spec_witness :
    ∃ st' lines,
      FileChecker.cal_all { data := [(.str "old", some "v")], saves := [] }
          ["a"] (fun _ => some "h") = .ok st'
      ∧ st'.data = dictUpdate []
          (FileChecker.compute_md5_for_files (fun _ => some "h") ["a"])
      ∧ FileChecker.saveLines st'.data = .ok lines
      ∧ st'.saves
          = ({ data := [(PyKey.str "old", some "v")], saves := [] } : FCState).saves
            ++ [[], lines] :=
  cal_all_spec { data := [(.str "old", some "v")], saves := [] }
    ["a"] (fun _ => some "h") (by decide)

/-- C7: whenever the fetched manifest's `versionId` differs from the
resource version just fetched from the version endpoint, `get_file_list`
raises `AssertionError` before parsing a single entry, and `hot_update`
aborts with that error leaving the world untouched — no entry is
processed. -/
theorem manifest_version_mismatch_aborts (env : Env) (m : Manifest)
    (remote : GameVersion) (initMode : Bool) (w : World)
    (hm : env.manifestResult = .ok m)
    (hne : m.versionId ≠ remote.resource_version) :
    get_file_list env.manifestResult remote = .error .assertionError
    ∧ hot_update env initMode remote w = (w, .error .assertionError) := by
  have h1 : get_file_list env.manifestResult remote = .error .assertionError := by
    rw [hm]
    simp [get_file_list, hne]
  exact ⟨h1, by simp [hot_update, h1]⟩

/-- C7 witness: a manifest declaring `r6` against a fetched resource
version `r5`. -/
theorem manifest_version_mismatch_aborts_witness :
    get_file_list envMismatch.manifestResult
        { client_version := some "1", resource_version := some "r5" }
      = .error .assertionError
    ∧ hot_update envMismatch false
        { client_version := some "1", resource_version := some "r5" } emptyWorld
      = (emptyWorld, .error .assertionError) :=
  manifest_version_mismatch_aborts envMismatch
    { versionId := some "r6", abInfos := [], packInfos := [] }
    { client_version := some "1", resource_version := some "r5" }
    false emptyWorld rfl (by decide)

/-- C8: from a fresh dispatcher three requests return 0, 1 and 2; after
releasing 1 the next request returns 1 again; releasing any position that
was never issued (`counter ≤ p`) or is currently released raises
`ValueError`; and, in general, when the released list is sorted (which
`heapPush` preserves, last conjunct) a request pops its head, which is its
minimum, without touching the counter. -/
theorem position_dispatcher_spec :
    (PositionDispatcher.request ⟨0, []⟩ = (0, ⟨1, []⟩)
      ∧ PositionDispatcher.request ⟨1, []⟩ = (1, ⟨2, []⟩)
      ∧ PositionDispatcher.request ⟨2, []⟩ = (2, ⟨3, []⟩)
      ∧ PositionDispatcher.release ⟨3, []⟩ 1 = .ok ⟨3, [1]⟩
      ∧ PositionDispatcher.request ⟨3, [1]⟩ = (1, ⟨3, []⟩))
    ∧ (∀ (d : PositionDispatcher) (p : Nat),
        d.counter ≤ p ∨ p ∈ d.released →
        PositionDispatcher.release d p = .error .valueError)
    ∧ (∀ (d : PositionDispatcher) (q : Nat) (rest : List Nat),
        d.released = q :: rest → List.Sorted (· ≤ ·) d.released →
        d.request = (q, ⟨d.counter, rest⟩) ∧ ∀ x ∈ d.released, q ≤ x)
    ∧ (∀ (l : List Nat) (p : Nat),
        List.Sorted (· ≤ ·) l → List.Sorted (· ≤ ·) (heapPush l p)) := by
  refine ⟨by decide, ?_, ?_, fun l p hs => sorted_heapPush l p hs⟩
  · intro d p hp
    unfold PositionDispatcher.release
    rw [if_neg]
    rintro ⟨h1, h2⟩
    rcases hp with h | h
    · exact absurd h1 (Nat.not_lt.mpr h)
    · exact h2 h
  · intro d q rest hrel hsort
    constructor
    · simp [PositionDispatcher.request, hrel]
    · intro x hx
      rw [hrel] at hsort hx
      rw [List.sorted_cons] at hsort
      rcases List.mem_cons.mp hx with rfl | hx'
      · exact le_refl _
      · exact hsort.1 x hx'

/-- C8 witness: releasing an unissued position and a currently released
position both raise, and a request on a sorted released list pops its
minimum. -/
theorem position_dispatcher_spec_witness :
    PositionDispatcher.release ⟨2, [0]⟩ 5 = .error .valueError
    ∧ PositionDispatcher.release ⟨2, [0]⟩ 0 = .error .valueError
    ∧ ((⟨7, [2, 5]⟩ : PositionDispatcher).request = (2, ⟨7, [5]⟩)
        ∧ ∀ x ∈ (⟨7, [2, 5]⟩ : PositionDispatcher).released, 2 ≤ x) :=
  ⟨position_dispatcher_spec.2.1 ⟨2, [0]⟩ 5 (Or.inl (by decide)),
   position_dispatcher_spec.2.1 ⟨2, [0]⟩ 0 (Or.inr (by decide)),
   position_dispatcher_spec.2.2.1 ⟨7, [2, 5]⟩ 2 [5] rfl
     (by simp [List.sorted_cons])⟩

/-- C9 (code-bug evaluation): a failed hash computation (the digest oracle
returning `None` for file `x`) does not abort the batch — the sibling file
`y` still gets its hash and `x` is recorded with the `None` sentinel — but
a subsequent `check_info` on an entry named `x` whose declared hash is
absent returns `True` (the sentinel compares equal to the absent declared
hash), i.e. the sentinel is treated as current there; against a declared
hash string the sentinel is correctly not current (last conjunct). -/
theorem hash_failure_sentinel_behavior :
    FileChecker.cal_files { data := [], saves := [] } ["x", "y"]
        (fun f => if f = "y" then some "h" else none)
      = { data := [(.str "x", none), (.str "y", some "h")], saves := [] }
    ∧ FileChecker.check_info [(.str "x", none), (.str "y", some "h")]
        { id := 0, name := "x", hash := none, md5 := none,
          total_size := 0, ab_size := 0, type := none, parent := none } = true
    ∧ FileChecker.check_info [(.str "x", none), (.str "y", some "h")]
        { id := 0, name := "x", hash := none, md5 := some "h",
          total_size := 0, ab_size := 0, type := none, parent := none } = false := by
  decide

/-- C10: the `Path`-based `FileChecker.check` never returns `True` on a
store whose keys are all `str` keys (which is every store the writers
`load`/`update`/`cal_files` can build): when the file's relative POSIX path
is not a key it returns `False`, and when it is a key the final subscript
indexes with the `Path` object, which is absent from the dict, raising
`KeyError`. -/
theorem path_check_never_true (d : PyDict) (rel md5 : String)
    (h : ∀ kv ∈ d, ∃ s, kv.1 = PyKey.str s) :
    (dictFind d (.str rel) = none → FileChecker.check d rel md5 = .ok false)
    ∧ (dictFind d (.str rel) ≠ none →
        FileChecker.check d rel md5 = .error .keyError)
    ∧ FileChecker.check d rel md5 ≠ .ok true := by
  have hp := dictFind_path_eq_none d rel h
  refine ⟨?_, ?_, ?_⟩
  · intro hnone
    simp [FileChecker.check, hnone]
  · intro hsome
    cases hf : dictFind d (.str rel) with
    | none => exact absurd hf hsome
    | some v => simp [FileChecker.check, hf, hp]
  · cases hf : dictFind d (.str rel) with
    | none => simp [FileChecker.check, hf]
    | some v => simp [FileChecker.check, hf, hp]

/-- C10 witness: both behaviors at concrete stores — a present key raises
`KeyError`, an absent key returns `False`. -/
theorem path_check_never_true_witness :
    FileChecker.check [(.str "a", some "h")] "a" "h" = .error .keyError
    ∧ FileChecker.check [(.str "a", some "h")] "b" "h" = .ok false :=
  ⟨(path_check_never_true [(.str "a", some "h")] "a" "h"
      (by rintro kv hkv; rw [List.mem_singleton] at hkv; subst hkv
          exact ⟨"a", rfl⟩)).2.1 (by decide),
   (path_check_never_true [(.str "a", some "h")] "b" "h"
      (by rintro kv hkv; rw [List.mem_singleton] at hkv; subst hkv
          exact ⟨"a", rfl⟩)).1 (by decide)⟩

/-! ## Shape lemmas for the controller steps (claim C1) -/

lemma extendsNoVer_refl (w : World) : ExtendsNoVer w w :=
  ⟨rfl, [], by simp, by simp⟩

lemma extendsNoVer_mk (w w' : World) (hv : w'.versionFile = w.versionFile)
    (es : List Event) (he : w'.events = w.events ++ es)
    (hn : Event.versionSaved ∉ es) : ExtendsNoVer w w' :=
  ⟨hv, es, he, hn⟩

lemma extendsNoVer_trans (w w' w'' : World)
    (h1 : ExtendsNoVer w w') (h2 : ExtendsNoVer w' w'') : ExtendsNoVer w w'' := by
  obtain ⟨hv1, es1, he1, hn1⟩ := h1
  obtain ⟨hv2, es2, he2, hn2⟩ := h2
  refine ⟨hv1 ▸ hv2, es1 ++ es2, ?_, ?_⟩
  · rw [he2, he1, List.append_assoc]
  · simp [List.mem_append, hn1, hn2]

/-- The download batch never touches the version record and only logs
archive downloads. -/
lemma runDownloads_extends (env : Env) (ns : List String) (w : World) :
    ExtendsNoVer w (runDownloads env ns w).1 := by
  induction ns generalizing w with
  | nil => exact extendsNoVer_refl w
  | cons n rest ih =>
    cases hd : env.downloadResult n with
    | error e =>
      have hstep : runDownloads env (n :: rest) w = (w, .error e) := by
        simp [runDownloads, hd]
      rw [hstep]
      exact extendsNoVer_refl w
    | ok u =>
      have hstep : runDownloads env (n :: rest) w
          = runDownloads env rest
              { w with events := w.events ++ [Event.archiveDownloaded n] } := by
        simp [runDownloads, hd]
      rw [hstep]
      refine extendsNoVer_trans _ _ _ ?_ (ih _)
      exact ⟨rfl, [Event.archiveDownloaded n], rfl, by simp⟩

/-- The hash-recording loop never touches the version record and only logs
hash recordings. -/
lemma recordHashes_extends (env : Env) (pairs : List (HotUpdateInfo × List String))
    (w : World) : ExtendsNoVer w (recordHashes env pairs w).1 := by
  induction pairs generalizing w with
  | nil => exact extendsNoVer_refl w
  | cons p rest ih =>
    obtain ⟨info, files⟩ := p
    cases files with
    | nil =>
      have hstep : recordHashes env ((info, []) :: rest) w = recordHashes env rest w := by
        simp [recordHashes]
      rw [hstep]
      exact ih w
    | cons f0 fs =>
      cases hmd : info.md5 with
      | some m =>
        cases hg : env.getMd5Result f0 with
        | error e =>
          have hstep : recordHashes env ((info, f0 :: fs) :: rest) w = (w, .error e) := by
            simp [recordHashes, hmd, hg]
          rw [hstep]
          exact extendsNoVer_refl w
        | ok computed =>
          have hstep : recordHashes env ((info, f0 :: fs) :: rest) w
              = recordHashes env rest
                  { w with
                    checker := { w.checker with
                      data := dictInsert w.checker.data (.str f0) (some computed) },
                    events := w.events ++ [Event.hashRecorded f0] } := by
            simp [recordHashes, hmd, hg, FileChecker.update]
          rw [hstep]
          refine extendsNoVer_trans _ _ _ ?_ (ih _)
          exact ⟨rfl, [Event.hashRecorded f0], rfl, by simp⟩
      | none =>
        have hstep : recordHashes env ((info, f0 :: fs) :: rest) w
            = recordHashes env rest
                { w with
                  checker := FileChecker.cal_files w.checker (f0 :: fs) env.md5fs,
                  events := w.events ++ [Event.hashRecorded f0] } := by
          simp [recordHashes, hmd]
        rw [hstep]
        refine extendsNoVer_trans _ _ _ ?_ (ih _)
        exact ⟨rfl, [Event.hashRecorded f0], rfl, by simp⟩

/-- Persisting the integrity store never touches the version record. -/
lemma saveChecker_extends (w : World) : ExtendsNoVer w (saveChecker w).1 := by
  unfold saveChecker
  cases hs : FileChecker.save w.checker with
  | error e => exact extendsNoVer_refl w
  | ok st' => exact ⟨rfl, [Event.checkerSaved], rfl, by simp⟩

/-- When the integrity-store persist succeeds, the step's one new effect is
exactly the persist. -/
lemma saveChecker_ok_events (w : World) (h : (saveChecker w).2 = .ok ()) :
    (saveChecker w).1.events = w.events ++ [Event.checkerSaved] := by
  unfold saveChecker at h ⊢
  cases hs : FileChecker.save w.checker with
  | error e => rw [hs] at h; simp at h
  | ok st' => rfl

/-- The client-package refresh never touches the version record. -/
lemma download_apk_extends (env : Env) (w : World) :
    ExtendsNoVer w (download_apk env w).1 := by
  unfold download_apk
  cases hu : env.apkUrlFound with
  | false => exact extendsNoVer_refl w
  | true =>
    simp only [Bool.not_true, Bool.false_eq_true, if_false]
    cases hf : env.apkFetchResult with
    | error e => exact extendsNoVer_refl w
    | ok u =>
      cases hx : env.apkExtractResult with
      | error e =>
        exact ⟨rfl, [Event.apkDownloaded], rfl, by simp⟩
      | ok u' =>
        cases hc : FileChecker.cal_all
            ({ w with events := w.events ++ [Event.apkDownloaded] }).checker
            env.apkFiles env.md5fs with
        | error e =>
          exact ⟨rfl, [Event.apkDownloaded, Event.apkExtracted], by simp, by simp⟩
        | ok st' =>
          exact ⟨rfl,
            [Event.apkDownloaded, Event.apkExtracted, Event.checkerRecomputed],
            by simp [stepOk], by simp⟩

/-- The whole reconcile phase never touches the version record, and when it
completes normally its last effect is persisting the integrity store. -/
lemma hot_update_shape (env : Env) (initMode : Bool) (remote : GameVersion)
    (w : World) :
    ExtendsNoVer w (hot_update env initMode remote w).1
    ∧ ((hot_update env initMode remote w).2 = .ok () →
        ∃ es, (hot_update env initMode remote w).1.events
            = w.events ++ es ++ [Event.checkerSaved]
          ∧ Event.versionSaved ∉ es) := by
  unfold hot_update
  split
  case _ e heq => exact ⟨extendsNoVer_refl w, by intro h; simp at h⟩
  case _ abpack ab pack heq =>
    dsimp only
    rcases hr1 : runDownloads env
        (((check_hot_update (Filter.compile env.excludePatterns)
            (Filter.compile env.filterPatterns) w.checker.data env.zipSizes
            (downloadCandidates initMode ab pack)).1).map
          (fun i => get_hot_update_file_name i.name)) w with ⟨w1, res1⟩
    have hext1 : ExtendsNoVer w w1 := by
      have hh := runDownloads_extends env
        (((check_hot_update (Filter.compile env.excludePatterns)
            (Filter.compile env.filterPatterns) w.checker.data env.zipSizes
            (downloadCandidates initMode ab pack)).1).map
          (fun i => get_hot_update_file_name i.name)) w
      rw [hr1] at hh
      exact hh
    rw [hr1]
    cases res1 with
    | error e =>
      simp only [andThen]
      exact ⟨hext1, by intro h; simp at h⟩
    | ok u =>
      simp only [andThen]
      split
      case _ e heqx => exact ⟨hext1, by intro h; simp at h⟩
      case _ filess heqx =>
        rcases hr2 : recordHashes env
            ((check_hot_update (Filter.compile env.excludePatterns)
                (Filter.compile env.filterPatterns) w.checker.data env.zipSizes
                (downloadCandidates initMode ab pack)).2.zip filess)
            { w1 with events := w1.events ++ [Event.archivesExtracted] }
          with ⟨w3, res2⟩
        have hext3 : ExtendsNoVer w w3 := by
          have h2 := recordHashes_extends env
            ((check_hot_update (Filter.compile env.excludePatterns)
                (Filter.compile env.filterPatterns) w.checker.data env.zipSizes
                (downloadCandidates initMode ab pack)).2.zip filess)
            { w1 with events := w1.events ++ [Event.archivesExtracted] }
          rw [hr2] at h2
          refine extendsNoVer_trans _ _ _ (extendsNoVer_trans _ _ _ hext1 ?_) h2
          exact ⟨rfl, [Event.archivesExtracted], rfl, by simp⟩
        cases res2 with
        | error e =>
          exact ⟨hext3, by intro h; simp at h⟩
        | ok u2 =>
          constructor
          · exact extendsNoVer_trans _ _ _ hext3 (saveChecker_extends w3)
          · intro hok
            have hev := saveChecker_ok_events w3 hok
            obtain ⟨hv3, es3, he3, hn3⟩ := hext3
            refine ⟨es3, ?_, hn3⟩
            show (saveChecker w3).1.events = w.events ++ es3 ++ [Event.checkerSaved]
            rw [hev, he3, List.append_assoc]

/-- C1: the new version is written to the local version record only after
the whole reconcile phase has completed without a raised error: every run
that ends in an error leaves the version file unchanged and performs no
`versionSaved` effect, and in every run that performs a `versionSaved`
effect that effect is the very last one and is preceded by the
integrity-store persist of the reconcile phase. -/
theorem persist_version_only_after_reconcile (env : Env) (w : World) :
    (∀ e : PyErr, (Downloader.start env w).2 = .error e →
        (Downloader.start env w).1.versionFile = w.versionFile
        ∧ Event.versionSaved
            ∉ (Downloader.start env w).1.events.drop w.events.length)
    ∧ ((Downloader.start env w).2 = .ok () →
        Event.versionSaved ∈ (Downloader.start env w).1.events.drop w.events.length →
        ∃ es, (Downloader.start env w).1.events
            = w.events ++ es ++ [Event.versionSaved]
          ∧ Event.checkerSaved ∈ es ∧ Event.versionSaved ∉ es) := by
  have H : ((Downloader.start env w).2 ≠ Except.ok ()
        ∧ ExtendsNoVer w (Downloader.start env w).1)
      ∨ ((Downloader.start env w).2 = Except.ok ()
        ∧ ((Downloader.start env w).1.events = w.events
          ∨ ∃ es, (Downloader.start env w).1.events
              = w.events ++ es ++ [Event.versionSaved]
            ∧ Event.checkerSaved ∈ es ∧ Event.versionSaved ∉ es)) := by
    unfold Downloader.start
    cases hdi : downloaderInit w.versionFile with
    | error e => exact Or.inl ⟨by intro h; simp at h, extendsNoVer_refl w⟩
    | ok p =>
      obtain ⟨localV, initMode⟩ := p
      dsimp only
      cases hnc : env.netConfigResult with
      | error e => exact Or.inl ⟨by intro h; simp at h, extendsNoVer_refl w⟩
      | ok u0 =>
        dsimp only
        cases hrv : env.remoteVersionResult with
        | error e => exact Or.inl ⟨by intro h; simp at h, extendsNoVer_refl w⟩
        | ok remote =>
          dsimp only
          cases heq : (localV == remote) with
          | true => exact Or.inr ⟨rfl, Or.inl rfl⟩
          | false =>
            rcases hap : (if localV.client_version == remote.client_version
                then stepOk w else download_apk env w) with ⟨w1, res1⟩
            have hextA : ExtendsNoVer w w1 := by
              have hh : ExtendsNoVer w
                  (if localV.client_version == remote.client_version
                    then stepOk w else download_apk env w).1 := by
                by_cases hcc : (localV.client_version == remote.client_version) = true
                · rw [if_pos hcc]; exact extendsNoVer_refl w
                · rw [if_neg hcc]; exact download_apk_extends env w
              rw [hap] at hh
              exact hh
            cases res1 with
            | error e =>
              refine Or.inl ⟨by intro h; simp [andThen] at h, ?_⟩
              exact hextA
            | ok u1 =>
              simp only [andThen]
              rcases hr2 : hot_update env initMode remote w1 with ⟨w2, res2⟩
              have hshape := hot_update_shape env initMode remote w1
              rw [hr2] at hshape
              cases res2 with
              | error e2 =>
                refine Or.inl ⟨by intro h; simp [andThen] at h, ?_⟩
                exact extendsNoVer_trans _ _ _ hextA hshape.1
              | ok u2 =>
                refine Or.inr ⟨rfl, Or.inr ?_⟩
                obtain ⟨es2, he2, hn2⟩ := hshape.2 rfl
                obtain ⟨hvA, es1, heA, hnA⟩ := hextA
                refine ⟨es1 ++ (es2 ++ [Event.checkerSaved]), ?_, by simp, ?_⟩
                · show w2.events ++ [Event.versionSaved]
                      = w.events ++ (es1 ++ (es2 ++ [Event.checkerSaved]))
                        ++ [Event.versionSaved]
                  rw [he2, heA]
                  simp [List.append_assoc]
                · simp [List.mem_append, hnA, hn2]
  constructor
  · intro e he
    rcases H with ⟨hne, hv, es, hee, hnn⟩ | ⟨hok, _⟩
    · refine ⟨hv, ?_⟩
      rw [hee, List.drop_left]
      exact hnn
    · rw [hok] at he
      simp at he
  · intro hok hmem
    rcases H with ⟨hne, _⟩ | ⟨_, hcase⟩
    · exact absurd hok hne
    · rcases hcase with hsame | hex
      · rw [hsame, List.drop_length] at hmem
        simp at hmem
      · exact hex

/-- C1 witness: a fully successful incremental run from a fresh world — the
version record is written last, after the integrity-store persist. -/
theorem persist_version_only_after_reconcile_witness :
    ∃ es, (Downloader.start envHappy emptyWorld).1.events
        = emptyWorld.events ++ es ++ [Event.versionSaved]
      ∧ Event.checkerSaved ∈ es ∧ Event.versionSaved ∉ es :=
  (persist_version_only_after_reconcile envHappy emptyWorld).2
    (by decide) (by decide)

/-- Running the `'|'`-join of regexes tries every alternative: the fold of
`alt` matches iff some alternative matches. -/
lemma reRun_foldl_alt (rs : List Regex) (r : Regex) (s : List Char)
    (k : List Char → Bool) :
    reRun (rs.foldl .alt r) s k
      = (reRun r s k || rs.any fun r' => reRun r' s k) := by
  induction rs generalizing r with
  | nil => simp
  | cons a as ih =>
    simp only [List.foldl_cons, List.any_cons]
    rw [ih]
    simp [reRun, Bool.or_assoc]

/-- `.*` can always consume the whole remaining input: when the
continuation accepts the empty rest, `starRun` succeeds on any input. -/
lemma starRun_true_of_nil (k : List Char → Bool) (hk : k [] = true) :
    ∀ l, starRun k l = true := by
  intro l
  induction l with
  | nil => simpa [starRun]
  | cons c rest ih => simp [starRun, ih]

/-- The translated `bgm/*` pattern accepts `bgm/` followed by anything:
`*` is `.*` under DOTALL, so the run may contain path separators. -/
lemma compile_bgm_star (m : List Char) :
    reRun (fnmatchTranslate "bgm/*") ('b' :: 'g' :: 'm' :: '/' :: m)
      (fun _ => true) = true := by
  have hsh : fnmatchTranslate "bgm/*"
      = Regex.seq (Regex.seq (.lit 'b') (Regex.seq (.lit 'g') (Regex.seq (.lit 'm')
          (Regex.seq (.lit '/') (Regex.seq .anyStar .eps))))) Regex.endAnchor := by
    decide
  rw [hsh]
  simp [reRun, starRun_true_of_nil]

/-- C6: the four example paths behave as claimed for the matcher compiled
from the patterns `bgm/*` and `se/*.ogg`; the compiled matcher is the
disjunction of the per-pattern anchored regular expressions produced by
`fnmatch.translate` (second conjunct); and the `*` of a translated glob
matches any run of characters including path separators — every extension
of `bgm/` matches (third conjunct). -/
theorem filter_engine_correct :
    (Filter.compile ["bgm/*", "se/*.ogg"] "bgm/theme.mp3" = true
      ∧ Filter.compile ["bgm/*", "se/*.ogg"] "se/hit.ogg" = true
      ∧ Filter.compile ["bgm/*", "se/*.ogg"] "se/hit.wav" = false
      ∧ Filter.compile ["bgm/*", "se/*.ogg"] "voice/1.mp3" = false)
    ∧ (∀ (p : String) (ps : List String) (s : String),
        Filter.compile (p :: ps) s
          = (p :: ps).any fun q => Filter.match' s (fnmatchTranslate q))
    ∧ (∀ sfx : String, Filter.compile ["bgm/*"] ("bgm/" ++ sfx) = true) := by
  refine ⟨by decide, ?_, ?_⟩
  · intro p ps s
    show reRun (Filter.compile_patterns (p :: ps))
        (mapChars (fun c => if c = '\\' then '/' else c) s).data (fun _ => true)
      = (p :: ps).any fun q => Filter.match' s (fnmatchTranslate q)
    rw [show Filter.compile_patterns (p :: ps)
        = (ps.map fnmatchTranslate).foldl .alt (fnmatchTranslate p) from rfl]
    rw [reRun_foldl_alt]
    simp only [Filter.match', reMatch]
    congr 1
    induction ps with
    | nil => rfl
    | cons a as ih => simp [ih]
  · intro sfx
    exact compile_bgm_star (List.map (fun c => if c = '\\' then '/' else c) sfx.data)
